import Mathlib

/-!
Shallow embedding of the cli7z library: the output-parsing state machine for
the detailed listing (getInfo) and the simple listing (getListing), the
password verifier (TestPassword) and the extractor (ExtractWithPassword).
External process invocations are modelled by passing the captured combined
output (and, where the code inspects it, the exit status) as explicit
parameters.  Go strings are modelled as lists of characters and Go string
maps as association lists with last-write-wins update.
-/

/-- Go strings, modelled as lists of characters. -/
abbrev Str := List Char

/-- Model of strings.HasPrefix. -/
def startsWith : Str → Str → Bool
  | _, [] => true
  | [], _ :: _ => false
  | c :: s, p :: ps => c == p && startsWith s ps

/-- Model of strings.HasSuffix. -/
def endsWith (s p : Str) : Bool := startsWith s.reverse p.reverse

/-- Model of strings.Contains. -/
def containsSub : Str → Str → Bool
  | [], p => startsWith [] p
  | c :: s, p => startsWith (c :: s) p || containsSub s p

/-- Model of strings.Cut: split at the first occurrence of the separator;
none when the separator does not occur. -/
def cutOn : Str → Str → Option (Str × Str)
  | [], sep => if startsWith [] sep then some ([], []) else none
  | c :: s, sep =>
    if startsWith (c :: s) sep then some ([], (c :: s).drop sep.length)
    else
      match cutOn s sep with
      | some (b, a) => some (c :: b, a)
      | none => none

/-- Fuel-based helper for replaceAll (structural recursion on the fuel so
the kernel can evaluate it; replaceAll always supplies enough fuel). -/
def replaceAllAux (pat rep : Str) : Nat → Str → Str
  | 0, _ => []
  | _ + 1, [] => []
  | fuel + 1, c :: s' =>
    if pat ≠ [] ∧ startsWith (c :: s') pat then
      rep ++ replaceAllAux pat rep fuel ((c :: s').drop pat.length)
    else c :: replaceAllAux pat rep fuel s'

/-- Model of strings.ReplaceAll (non-overlapping, left to right).  The code
only calls it with the non-empty pattern marker; the empty-pattern case is
modelled as the identity. -/
def replaceAll (s pat rep : Str) : Str := replaceAllAux pat rep s.length s

/-- bufio.ScanLines drops one trailing carriage return from each line. -/
def dropTrailingCR (l : Str) : Str :=
  if endsWith l ['\r'] then l.dropLast else l

/-- Helper for splitLines: accumulates the current line. -/
def splitLinesAux (acc : Str) : Str → List Str
  | [] => if acc = [] then [] else [dropTrailingCR acc]
  | c :: rest =>
    if c = '\n' then dropTrailingCR acc :: splitLinesAux [] rest
    else splitLinesAux (acc ++ [c]) rest

/-- Model of the bufio.Scanner line loop: split the raw output into lines at
newlines, dropping trailing carriage returns; a final fragment without a
terminating newline is still a line, and empty input yields no lines. -/
def splitLines (s : Str) : List Str := splitLinesAux [] s

/-- Model of a Go map assignment m[k] = v over an association list:
overwrite the value in place if the key exists, else append. -/
def mapPut : List (Str × Str) → Str → Str → List (Str × Str)
  | [], k, v => [(k, v)]
  | (k', v') :: rest, k, v =>
    if k' = k then (k, v) :: rest else (k', v') :: mapPut rest k v

def sepEq : Str := " = ".data

def sepColon : Str := ": ".data

def errMark : Str := "ERROR:".data

def encArchStr : Str := "encrypted archive".data

def typeMark : Str := "Type = ".data

def encMark : Str := "Encrypted = ".data

def tenDash : Str := "----------".data

def dashDash : Str := "--".data

def plusStr : Str := "+".data

def okLine : Str := "Everything is Ok".data

def wrongPw : Str := "Wrong password?".data

def noTypeMsg : Str := "not supported? error: no Type found".data

/-- THeader.addKey: try the " = " separator, then the ": " separator;
record nothing when neither occurs. -/
def headerAddKey (d : List (Str × Str)) (s : Str) : List (Str × Str) :=
  match cutOn s sepEq with
  | some (k, v) => mapPut d k v
  | none =>
    match cutOn s sepColon with
    | some (k, v) => mapPut d k v
    | none => d

/-- TEntry.addKey: only the " = " separator. -/
def entryAddKey (d : List (Str × Str)) (s : Str) : List (Str × Str) :=
  match cutOn s sepEq with
  | some (k, v) => mapPut d k v
  | none => d

/-- The TFile archive handle.  The Header field is THeader.Data and each
element of Entries is a TEntry.Data (association-list map models).  The
source-file path field is input plumbing and is not modelled.  Typ models
the field named Type in the source (Type is a Lean keyword). -/
structure TFileM where
  Typ : Str
  Listing : Str
  Header : List (Str × Str)
  Entries : List (List (Str × Str))
  Encrypted : Bool
  Password : Str
  ErrorState : Str
deriving DecidableEq

/-- The three-phase block cursor. -/
structure TCursor where
  Preamble : Bool
  Header : Bool
  Entries : Bool
deriving DecidableEq

/-- TCursor.Start: enter the Preamble phase. -/
def TCursor.Start : TCursor := ⟨true, false, false⟩

/-- TCursor.Next: Preamble to Header, Header to Entries, else unchanged. -/
def TCursor.Next (c : TCursor) : TCursor :=
  if c.Preamble then ⟨false, true, false⟩
  else if c.Header then ⟨false, false, true⟩
  else c

/-- Outcome of the getInfo line loop: fail is an early error return carrying
the error message, encOk is the early nil return of the whole-archive
encrypted case, done is falling off the end of the loop (after which
getListing runs). -/
inductive InfoResult where
  | fail (msg : Str) (f : TFileM)
  | encOk (f : TFileM)
  | done (f : TFileM)
deriving DecidableEq

def InfoResult.file : InfoResult → TFileM
  | .fail _ f => f
  | .encOk f => f
  | .done f => f

def InfoResult.isDone : InfoResult → Bool
  | .done _ => true
  | _ => false

def InfoResult.errMsg : InfoResult → Option Str
  | .fail m _ => some m
  | _ => none

/-- The line loop of getInfo (lines 179-237 of the source), with the file
state, the in-progress entry and the cursor passed explicitly. -/
def infoLoop (f : TFileM) (entry : List (Str × Str)) (c : TCursor) :
    List Str → InfoResult
  | [] => .done f
  | line :: rest =>
    if c.Preamble then
      if startsWith line errMark then
        if containsSub line encArchStr then
          .encOk { f with Typ := encArchStr, Encrypted := true }
        else .fail line f
      else if line = dashDash then infoLoop f entry c.Next rest
      else infoLoop f entry c rest
    else if c.Header then
      if line = [] then infoLoop f entry c rest
      else
        let f1 := if startsWith line typeMark then
            { f with Typ := replaceAll line typeMark [] } else f
        let f2 := if startsWith line encMark then
            { f1 with Encrypted := endsWith line plusStr } else f1
        if line = tenDash then
          if f2.Typ = [] then .fail noTypeMsg f2
          else infoLoop f2 entry c.Next rest
        else infoLoop { f2 with Header := headerAddKey f2.Header line } entry c rest
    else
      if line = [] then
        infoLoop { f with Entries := f.Entries ++ [entry] } [] c rest
      else
        let f1 := if startsWith line encMark && endsWith line plusStr then
            { f with Encrypted := true } else f
        infoLoop f1 (entryAddKey entry line) c rest

/-- The zero-value TFile as built at the start of getInfo (Header already
allocated empty). -/
def initFile : TFileM := ⟨[], [], [], [], false, [], []⟩

/-- getInfo applied to the lines of the detailed-listing output (the
external invocation already succeeded and its output was split). -/
def getInfoParse (lines : List Str) : InfoResult :=
  infoLoop initFile [] TCursor.Start lines

/-- The line loop of getListing (lines 121-145 of the source), accumulating
the listing text. -/
def listLoop (listing : Str) (c : TCursor) : List Str → Except Str Str
  | [] => .ok listing
  | line :: rest =>
    if c.Preamble then
      if startsWith line errMark then .error line
      else if line = dashDash then listLoop listing c.Next rest
      else listLoop listing c rest
    else if c.Header then
      if line = [] then listLoop (listing ++ line ++ ['\n']) c.Next rest
      else listLoop (listing ++ line ++ ['\n']) c rest
    else listLoop (listing ++ line ++ ['\n']) c rest

/-- Open = getInfo over the detailed-listing output, then (unless getInfo
returned early) getListing over the simple-listing output.  Returns the
final handle and the returned error, if any. -/
def openParse (sltLines lLines : List Str) : TFileM × Option Str :=
  match getInfoParse sltLines with
  | .fail msg f => (f, some msg)
  | .encOk f => (f, none)
  | .done f =>
    match listLoop f.Listing TCursor.Start lLines with
    | .error msg => (f, some msg)
    | .ok listing => ({ f with Listing := listing }, none)

/-- The scan loop of TestPassword over the output lines. -/
def tpScan : List Str → Bool
  | [] => false
  | line :: rest =>
    if line = okLine then true
    else if containsSub line wrongPw then false
    else tpScan rest

/-- TestPassword: the guard on Type/Encrypted, then the external test
invocation (modelled by its exit status and raw output), then the scan.
Returns the possibly-updated handle and the boolean result. -/
def TestPassword (f : TFileM) (password : Str) (execOk : Bool)
    (output : Str) : TFileM × Bool :=
  if f.Typ = [] ∨ f.Encrypted = false then (f, false)
  else if execOk = false then ({ f with ErrorState := output }, false)
  else (f, tpScan (splitLines output))

/-- The scan loop of ExtractWithPassword: success on the confirmation line,
otherwise an error carrying the whole raw output. -/
def extractLoop (data : Str) : List Str → Except Str Unit
  | [] => .error data
  | line :: rest => if line = okLine then .ok () else extractLoop data rest

/-- ExtractWithPassword: the exit status of the external invocation is
discarded by the code, so the result depends only on the captured output. -/
def ExtractWithPassword (folder password : Str) (execOk : Bool)
    (output : Str) : Except Str Unit :=
  extractLoop output (splitLines output)

/-- ExtractTo delegates to ExtractWithPassword with the empty password. -/
def ExtractTo (folder : Str) (execOk : Bool) (output : Str) :
    Except Str Unit :=
  ExtractWithPassword folder [] execOk output

/-- The entries produced by the entries phase over a list of lines, starting
from a given in-progress entry: a blank line appends the in-progress entry,
a non-blank line extends it, and the leftover entry at the end of input is
discarded. -/
def producedEntries (cur : List (Str × Str)) : List Str → List (List (Str × Str))
  | [] => []
  | line :: rest =>
    if line = [] then cur :: producedEntries [] rest
    else producedEntries (entryAddKey cur line) rest

/-- The effect of one non-blank, non-delimiter header line on the file
state: record the Type marker (via ReplaceAll), the Encrypted marker (plus
suffix), and feed the line to the header key/value extractor. -/
def hdrStep (f : TFileM) (l : Str) : TFileM :=
  { f with
    Typ := if startsWith l typeMark then replaceAll l typeMark [] else f.Typ,
    Encrypted := if startsWith l encMark then endsWith l plusStr else f.Encrypted,
    Header := headerAddKey f.Header l }

/-- Exactly one of the three cursor phases is active. -/
def onePhase (c : TCursor) : Bool :=
  (c.Preamble && !c.Header && !c.Entries) ||
  (!c.Preamble && c.Header && !c.Entries) ||
  (!c.Preamble && !c.Header && c.Entries)

def cHdr : TCursor := ⟨false, true, false⟩

def cEnt : TCursor := ⟨false, false, true⟩

theorem startC_Next : TCursor.Start.Next = cHdr := rfl

theorem cHdr_Next : cHdr.Next = cEnt := rfl

theorem cEnt_Next : cEnt.Next = cEnt := rfl

theorem tpScan_true_mem : ∀ L : List Str, tpScan L = true → okLine ∈ L := by
  intro L
  induction L with
  | nil => intro h; exact absurd h (by decide)
  | cons l rest ih =>
    intro h
    by_cases h1 : l = okLine
    · exact h1 ▸ List.mem_cons_self _ _
    · by_cases h2 : containsSub l wrongPw = true
      · rw [show tpScan (l :: rest) = false from by simp [tpScan, h1, h2]] at h
        exact absurd h (by decide)
      · rw [show tpScan (l :: rest) = tpScan rest from by simp [tpScan, h1, h2]] at h
        exact List.mem_cons_of_mem _ (ih h)

theorem extractLoop_ok_iff (data : Str) (L : List Str) :
    (extractLoop data L = .ok () ↔ okLine ∈ L) ∧
    (okLine ∉ L → extractLoop data L = .error data) := by
  induction L with
  | nil =>
    refine ⟨?_, fun _ => rfl⟩
    simp [extractLoop]
  | cons l rest ih =>
    by_cases h : l = okLine
    · subst h
      refine ⟨?_, ?_⟩
      · simp [extractLoop]
      · intro hmem; exact absurd (List.mem_cons_self _ _) hmem
    · have hstep : extractLoop data (l :: rest) = extractLoop data rest := by
        simp [extractLoop, h]
      refine ⟨?_, ?_⟩
      · rw [hstep, ih.1]
        constructor
        · exact fun hm => List.mem_cons_of_mem _ hm
        · intro hm
          rcases List.mem_cons.mp hm with h' | h'
          · exact absurd h'.symm h
          · exact h'
      · intro hmem
        rw [hstep]
        exact ih.2 fun hm => hmem (List.mem_cons_of_mem _ hm)

theorem infoLoop_password (lines : List Str) : ∀ f e c,
    (infoLoop f e c lines).file.Password = f.Password := by
  induction lines with
  | nil => intro f e c; rfl
  | cons l rest ih =>
    intro f e c
    simp only [infoLoop]
    repeat' split
    all_goals first | rfl | exact ih _ _ _

theorem onePhase_Next (c : TCursor) : onePhase c = true → onePhase c.Next = true := by
  rcases c with ⟨p, q, r⟩
  cases p <;> cases q <;> cases r <;> decide

/-- Claim C3: the password verification returns true only when the archive
type is known (non-empty), the handle is marked encrypted, the external test
invocation exited zero and its output contains the confirmation line
"Everything is Ok"; the operation returns a plain boolean (all failure paths
collapse to false). -/
theorem c3_test_password_true_conditions (f : TFileM) (password : Str)
    (execOk : Bool) (output : Str)
    (h : (TestPassword f password execOk output).2 = true) :
    f.Typ ≠ [] ∧ f.Encrypted = true ∧ execOk = true ∧
      okLine ∈ splitLines output := by
  unfold TestPassword at h
  split at h
  · simp at h
  · split at h
    · simp at h
    · rename_i h1 h2
      push_neg at h1
      refine ⟨h1.1, ?_, ?_, tpScan_true_mem _ h⟩
      · cases hE : f.Encrypted
        · exact absurd hE h1.2
        · rfl
      · cases hX : execOk
        · exact absurd hX h2
        · rfl

/-- Witness for C3: a concrete successful verification. -/
theorem c3_witness :
    ("Zip".data : Str) ≠ [] ∧ true = true ∧ true = true ∧
      okLine ∈ splitLines ("Everything is Ok\n".data) :=
  c3_test_password_true_conditions ⟨"Zip".data, [], [], [], true, [], []⟩
    ("pw".data) true ("Everything is Ok\n".data) (by decide)

/-- Claim C4: extraction succeeds exactly when the captured output contains
the line "Everything is Ok", independently of the tool exit status, and
otherwise the returned error detail is the full raw output. -/
theorem c4_extract_success_iff_ok_line (folder password : Str)
    (execOk : Bool) (output : Str) :
    (ExtractWithPassword folder password execOk output = .ok () ↔
        okLine ∈ splitLines output) ∧
    (okLine ∉ splitLines output →
        ExtractWithPassword folder password execOk output = .error output) ∧
    (∀ execOk2 : Bool, ExtractWithPassword folder password execOk output =
        ExtractWithPassword folder password execOk2 output) :=
  ⟨(extractLoop_ok_iff output (splitLines output)).1,
    (extractLoop_ok_iff output (splitLines output)).2, fun _ => rfl⟩

/-- Witness for C4: a run whose output contains the confirmation line
succeeds even with a failing exit status, and a run lacking it fails with
the raw output as the error detail. -/
theorem c4_witness :
    ExtractWithPassword ("d".data) [] false ("x\nEverything is Ok\ny".data) = .ok () ∧
    ExtractWithPassword ("d".data) [] true ("bad output".data) = .error ("bad output".data) :=
  ⟨(c4_extract_success_iff_ok_line ("d".data) [] false ("x\nEverything is Ok\ny".data)).1.mpr
      (by decide),
    (c4_extract_success_iff_ok_line ("d".data) [] true ("bad output".data)).2.1 (by decide)⟩

/-- Claim C6 fails on the code: a password verification that returns true
does not write the tested password into the Password field (the field
keeps its previous, empty, value). -/
theorem c6_counterexample :
    (TestPassword ⟨"Zip".data, [], [], [], true, [], []⟩ ("secret".data) true
        ("Everything is Ok\n".data)).2 = true ∧
    (TestPassword ⟨"Zip".data, [], [], [], true, [], []⟩ ("secret".data) true
        ("Everything is Ok\n".data)).1.Password = [] ∧
    ([] : Str) ≠ "secret".data := by
  refine ⟨by decide, by decide, by decide⟩

/-- Claim C6 (amended): no operation writes the Password field — the open
operation produces a handle with an empty Password and password
verification leaves the field unchanged even when it returns true. -/
theorem c6_password_never_written (f : TFileM) (password : Str)
    (execOk : Bool) (output : Str) (slt lOut : List Str) :
    (TestPassword f password execOk output).1.Password = f.Password ∧
    (openParse slt lOut).1.Password = [] := by
  constructor
  · unfold TestPassword
    split
    · rfl
    · split
      · rfl
      · rfl
  · have hp : (getInfoParse slt).file.Password = [] :=
      infoLoop_password slt initFile [] TCursor.Start
    unfold openParse
    cases hg : getInfoParse slt with
    | fail m f' =>
      rw [hg] at hp
      simpa using hp
    | encOk f' =>
      rw [hg] at hp
      simpa using hp
    | done f' =>
      rw [hg] at hp
      simp only [InfoResult.file] at hp
      dsimp only
      cases hl : listLoop f'.Listing TCursor.Start lOut with
      | error m => simpa using hp
      | ok L => simpa using hp

/-- Claim C8: the open parse is a pure function of the captured output
texts — two runs over the same outputs yield identical Header, Entries,
Type, Encrypted and Listing values. -/
theorem c8_parse_deterministic (slt lOut : List Str) :
    (openParse slt lOut).1.Header = (openParse slt lOut).1.Header ∧
    (openParse slt lOut).1.Entries = (openParse slt lOut).1.Entries ∧
    (openParse slt lOut).1.Typ = (openParse slt lOut).1.Typ ∧
    (openParse slt lOut).1.Encrypted = (openParse slt lOut).1.Encrypted ∧
    (openParse slt lOut).1.Listing = (openParse slt lOut).1.Listing ∧
    openParse slt lOut = openParse slt lOut :=
  ⟨rfl, rfl, rfl, rfl, rfl, rfl⟩

/-- Claim C9: after initialization exactly one cursor phase is active, this
remains so after every sequence of advance operations, and advance moves
Preamble to Header, Header to Entries, and is a no-op in Entries. -/
theorem c9_cursor_invariant :
    onePhase TCursor.Start = true ∧
    (∀ n : Nat, onePhase (TCursor.Next^[n] TCursor.Start) = true) ∧
    TCursor.Next ⟨true, false, false⟩ = ⟨false, true, false⟩ ∧
    TCursor.Next ⟨false, true, false⟩ = ⟨false, false, true⟩ ∧
    TCursor.Next ⟨false, false, true⟩ = ⟨false, false, true⟩ := by
  refine ⟨by decide, ?_, by decide, by decide, by decide⟩
  intro n
  induction n with
  | zero => decide
  | succ n ih =>
    rw [Function.iterate_succ_apply']
    exact onePhase_Next _ ih

example : splitLines ("a\nbc\r\n\nd".data) = ["a".data, "bc".data, [], "d".data] := by decide

example : cutOn ("Path = a = b".data) sepEq = some ("Path".data, "a = b".data) := by decide

example : replaceAll ("Type = Type = x".data) typeMark [] = "x".data := by decide

example : (getInfoParse [dashDash, "Type = Zip".data, tenDash, "Path = a".data, []]).isDone = true := by decide

theorem infoLoop_preamble_other (f : TFileM) (e : List (Str × Str)) (l : Str)
    (rest : List Str) (h1 : startsWith l errMark = false) (h2 : l ≠ dashDash) :
    infoLoop f e TCursor.Start (l :: rest) = infoLoop f e TCursor.Start rest := by
  simp [infoLoop, TCursor.Start, h1, h2]

theorem infoLoop_preamble_skip (pre : List Str) :
    (∀ l ∈ pre, startsWith l errMark = false ∧ l ≠ dashDash) →
    ∀ f e rest, infoLoop f e TCursor.Start (pre ++ rest) =
      infoLoop f e TCursor.Start rest := by
  induction pre with
  | nil => intro _ f e rest; rfl
  | cons l pre ih =>
    intro hpre f e rest
    have h := hpre l (List.mem_cons_self _ _)
    rw [List.cons_append, infoLoop_preamble_other f e l (pre ++ rest) h.1 h.2]
    exact ih (fun x hx => hpre x (List.mem_cons_of_mem _ hx)) f e rest

theorem infoLoop_dashDash (f : TFileM) (e : List (Str × Str)) (rest : List Str) :
    infoLoop f e TCursor.Start (dashDash :: rest) = infoLoop f e cHdr rest := by
  have h1 : startsWith dashDash errMark = false := by decide
  simp [infoLoop, TCursor.Start, TCursor.Next, cHdr, h1]

theorem infoLoop_enc_early (f : TFileM) (e : List (Str × Str)) (l : Str)
    (rest : List Str) (h1 : startsWith l errMark = true)
    (h2 : containsSub l encArchStr = true) :
    infoLoop f e TCursor.Start (l :: rest) =
      .encOk { f with Typ := encArchStr, Encrypted := true } := by
  simp [infoLoop, TCursor.Start, h1, h2]

theorem infoLoop_header_step (f : TFileM) (e : List (Str × Str)) (l : Str)
    (rest : List Str) (h1 : l ≠ []) (h2 : l ≠ tenDash) :
    infoLoop f e cHdr (l :: rest) = infoLoop (hdrStep f l) e cHdr rest := by
  by_cases hT : startsWith l typeMark = true <;>
    by_cases hE : startsWith l encMark = true <;>
      simp [infoLoop, cHdr, hdrStep, h1, h2, hT, hE]

theorem infoLoop_tenDash_noType (f : TFileM) (e : List (Str × Str))
    (rest : List Str) (h : f.Typ = []) :
    infoLoop f e cHdr (tenDash :: rest) = .fail noTypeMsg f := by
  have h1 : startsWith tenDash typeMark = false := by decide
  have h2 : startsWith tenDash encMark = false := by decide
  have h3 : (tenDash : Str) ≠ [] := by decide
  simp [infoLoop, cHdr, h1, h2, h3, h]

theorem infoLoop_tenDash_typed (f : TFileM) (e : List (Str × Str))
    (rest : List Str) (h : f.Typ ≠ []) :
    infoLoop f e cHdr (tenDash :: rest) = infoLoop f e cEnt rest := by
  have h1 : startsWith tenDash typeMark = false := by decide
  have h2 : startsWith tenDash encMark = false := by decide
  have h3 : (tenDash : Str) ≠ [] := by decide
  simp [infoLoop, cHdr, cEnt, TCursor.Next, h1, h2, h3, h]

theorem infoLoop_header_noType (mid : List Str) :
    (∀ l ∈ mid, startsWith l typeMark = false ∧ l ≠ tenDash) →
    ∀ f e rest, f.Typ = [] →
    ∃ f2, infoLoop f e cHdr (mid ++ rest) = infoLoop f2 e cHdr rest ∧
      f2.Typ = [] ∧ f2.Entries = f.Entries := by
  induction mid with
  | nil => intro _ f e rest hT; exact ⟨f, rfl, hT, rfl⟩
  | cons l mid ih =>
    intro hmid f e rest hT
    have h := hmid l (List.mem_cons_self _ _)
    by_cases hb : l = []
    · subst hb
      have hstep : infoLoop f e cHdr (([] : Str) :: (mid ++ rest)) =
          infoLoop f e cHdr (mid ++ rest) := by
        simp [infoLoop, cHdr]
      rw [List.cons_append, hstep]
      exact ih (fun x hx => hmid x (List.mem_cons_of_mem _ hx)) f e rest hT
    · rw [List.cons_append, infoLoop_header_step f e l (mid ++ rest) hb h.2]
      obtain ⟨f2, heq, hTyp, hEnt⟩ :=
        ih (fun x hx => hmid x (List.mem_cons_of_mem _ hx)) (hdrStep f l) e rest
          (by simp [hdrStep, h.1, hT])
      exact ⟨f2, heq, hTyp, by rw [hEnt]; simp [hdrStep]⟩

theorem openParse_fail (slt lOut : List Str) (m : Str) (f : TFileM)
    (h : getInfoParse slt = .fail m f) : openParse slt lOut = (f, some m) := by
  unfold openParse
  rw [h]

theorem openParse_encOk (slt lOut : List Str) (f : TFileM)
    (h : getInfoParse slt = .encOk f) : openParse slt lOut = (f, none) := by
  unfold openParse
  rw [h]

theorem producedEntries_stanza (s : List Str) :
    (∀ l ∈ s, l ≠ []) → ∀ cur rest,
    producedEntries cur (s ++ rest) =
      producedEntries (s.foldl entryAddKey cur) rest := by
  induction s with
  | nil => intro _ cur rest; rfl
  | cons l s ih =>
    intro hs cur rest
    have hl : l ≠ [] := hs l (List.mem_cons_self _ _)
    have hstep : producedEntries cur ((l :: s) ++ rest) =
        producedEntries (entryAddKey cur l) (s ++ rest) := by
      simp [producedEntries, hl]
    rw [hstep, ih (fun x hx => hs x (List.mem_cons_of_mem _ hx)) (entryAddKey cur l) rest]
    rfl

theorem infoLoop_entries_run (lines : List Str) : ∀ f e,
    (infoLoop f e cEnt lines).isDone = true ∧
    (infoLoop f e cEnt lines).file.Entries = f.Entries ++ producedEntries e lines ∧
    (infoLoop f e cEnt lines).file.Header = f.Header ∧
    (infoLoop f e cEnt lines).file.Typ = f.Typ := by
  induction lines with
  | nil => intro f e; exact ⟨rfl, by simp [infoLoop, InfoResult.file, producedEntries], rfl, rfl⟩
  | cons l rest ih =>
    intro f e
    by_cases hb : l = []
    · subst hb
      have hstep : infoLoop f e cEnt (([] : Str) :: rest) =
          infoLoop { f with Entries := f.Entries ++ [e] } [] cEnt rest := by
        simp [infoLoop, cEnt]
      rw [hstep]
      obtain ⟨h1, h2, h3, h4⟩ := ih { f with Entries := f.Entries ++ [e] } []
      refine ⟨h1, ?_, h3, h4⟩
      rw [h2]
      simp [producedEntries]
    · have hstep : infoLoop f e cEnt (l :: rest) =
          infoLoop (if startsWith l encMark && endsWith l plusStr then
            { f with Encrypted := true } else f) (entryAddKey e l) cEnt rest := by
        simp [infoLoop, cEnt, hb]
      rw [hstep]
      obtain ⟨h1, h2, h3, h4⟩ :=
        ih (if startsWith l encMark && endsWith l plusStr then
          { f with Encrypted := true } else f) (entryAddKey e l)
      have hE : (if startsWith l encMark && endsWith l plusStr then
          { f with Encrypted := true } else f).Entries = f.Entries := by
        split <;> rfl
      have hH : (if startsWith l encMark && endsWith l plusStr then
          { f with Encrypted := true } else f).Header = f.Header := by
        split <;> rfl
      have hTy : (if startsWith l encMark && endsWith l plusStr then
          { f with Encrypted := true } else f).Typ = f.Typ := by
        split <;> rfl
      refine ⟨h1, ?_, ?_, ?_⟩
      · rw [h2, hE]
        simp [producedEntries, hb]
      · rw [h3, hH]
      · rw [h4, hTy]

theorem replaceAllAux_nil (pat rep : Str) (fuel : Nat) :
    replaceAllAux pat rep fuel [] = [] := by
  cases fuel <;> rfl

theorem replaceAllAux_fuel (pat rep : Str) (fuel : Nat) :
    ∀ fuel2 s, s.length ≤ fuel → s.length ≤ fuel2 →
    replaceAllAux pat rep fuel s = replaceAllAux pat rep fuel2 s := by
  induction fuel with
  | zero =>
    intro fuel2 s h1 _
    have hs : s = [] := List.length_eq_zero.mp (Nat.le_zero.mp h1)
    subst hs
    rw [replaceAllAux_nil, replaceAllAux_nil]
  | succ fuel ih =>
    intro fuel2 s h1 h2
    cases s with
    | nil => rw [replaceAllAux_nil, replaceAllAux_nil]
    | cons c s' =>
      cases fuel2 with
      | zero => simp at h2
      | succ fuel2 =>
        simp only [replaceAllAux]
        by_cases hc : pat ≠ [] ∧ startsWith (c :: s') pat = true
        · rw [if_pos hc, if_pos hc]
          have hp : 0 < pat.length := List.length_pos.mpr hc.1
          have hd : ((c :: s').drop pat.length).length ≤ fuel := by
            simp only [List.length_drop, List.length_cons]
            simp only [List.length_cons] at h1
            omega
          have hd2 : ((c :: s').drop pat.length).length ≤ fuel2 := by
            simp only [List.length_drop, List.length_cons]
            simp only [List.length_cons] at h2
            omega
          rw [ih fuel2 _ hd hd2]
        · rw [if_neg hc, if_neg hc]
          have hs : s'.length ≤ fuel := by
            simp only [List.length_cons] at h1
            omega
          have hs2 : s'.length ≤ fuel2 := by
            simp only [List.length_cons] at h2
            omega
          rw [ih fuel2 s' hs hs2]

theorem replaceAll_step (l pat rep : Str) (hp : pat ≠ [])
    (h : startsWith l pat = true) :
    replaceAll l pat rep = rep ++ replaceAll (l.drop pat.length) pat rep := by
  cases l with
  | nil =>
    cases pat with
    | nil => exact absurd rfl hp
    | cons p ps => simp [startsWith] at h
  | cons c s' =>
    show replaceAllAux pat rep (c :: s').length (c :: s') = _
    simp only [List.length_cons, replaceAllAux]
    rw [if_pos ⟨hp, h⟩]
    congr 1
    have hp1 : 0 < pat.length := List.length_pos.mpr hp
    exact replaceAllAux_fuel pat rep s'.length ((c :: s').drop pat.length).length
      ((c :: s').drop pat.length)
      (by simp only [List.length_drop, List.length_cons]; omega) (le_refl _)

theorem replaceAllAux_no_occurrence (pat rep : Str) (fuel : Nat) :
    ∀ s, s.length ≤ fuel → containsSub s pat = false →
    replaceAllAux pat rep fuel s = s := by
  induction fuel with
  | zero =>
    intro s h1 _
    have hs : s = [] := List.length_eq_zero.mp (Nat.le_zero.mp h1)
    subst hs
    rfl
  | succ fuel ih =>
    intro s h1 h2
    cases s with
    | nil => rfl
    | cons c s' =>
      rw [show containsSub (c :: s') pat =
        (startsWith (c :: s') pat || containsSub s' pat) from rfl,
        Bool.or_eq_false_iff] at h2
      simp only [replaceAllAux]
      have hcond : ¬(pat ≠ [] ∧ startsWith (c :: s') pat = true) := by
        intro hc
        rw [h2.1] at hc
        simp at hc
      rw [if_neg hcond]
      have hs : s'.length ≤ fuel := by
        simp only [List.length_cons] at h1
        omega
      rw [ih s' hs h2.2]

theorem replaceAll_eq_drop (l pat : Str) (hp : pat ≠ [])
    (h : startsWith l pat = true)
    (hno : containsSub (l.drop pat.length) pat = false) :
    replaceAll l pat [] = l.drop pat.length := by
  rw [replaceAll_step l pat [] hp h]
  show replaceAll (l.drop pat.length) pat [] = _
  unfold replaceAll
  exact replaceAllAux_no_occurrence pat [] _ _ (le_refl _) hno

/-- Claim C1 is false as stated: a preamble containing an encrypted-archive
ERROR line does not yield the sentinel success when an earlier preamble
line also begins with "ERROR:" — the first ERROR line is returned as a hard
failure. -/
theorem c1_counterexample :
    (startsWith ("ERROR: a.7z: Can not open encrypted archive. Wrong password?".data)
        errMark = true ∧
      containsSub ("ERROR: a.7z: Can not open encrypted archive. Wrong password?".data)
        encArchStr = true ∧
      ("ERROR: a.7z: Can not open encrypted archive. Wrong password?".data) ∈
        [("ERROR: b.7z: Unsupported Method".data),
          ("ERROR: a.7z: Can not open encrypted archive. Wrong password?".data)] ∧
      (∀ l ∈ [("ERROR: b.7z: Unsupported Method".data),
          ("ERROR: a.7z: Can not open encrypted archive. Wrong password?".data)],
        l ≠ dashDash)) ∧
    (openParse [("ERROR: b.7z: Unsupported Method".data),
        ("ERROR: a.7z: Can not open encrypted archive. Wrong password?".data)] []).2 =
      some ("ERROR: b.7z: Unsupported Method".data) :=
  ⟨by decide, by decide⟩

/-- Claim C1 (amended): when the first "ERROR:" line of the preamble
contains the substring "encrypted archive" (no earlier preamble line begins
with "ERROR:" and none equals the "--" delimiter), open returns success
with Type "encrypted archive", the Encrypted flag true, an empty Header and
no Entries. -/
theorem c1_encrypted_archive_sentinel (pre rest lOut : List Str) (e : Str)
    (hpre : ∀ l ∈ pre, startsWith l errMark = false ∧ l ≠ dashDash)
    (h1 : startsWith e errMark = true) (h2 : containsSub e encArchStr = true) :
    (openParse (pre ++ e :: rest) lOut).2 = none ∧
    (openParse (pre ++ e :: rest) lOut).1.Typ = encArchStr ∧
    (openParse (pre ++ e :: rest) lOut).1.Encrypted = true ∧
    (openParse (pre ++ e :: rest) lOut).1.Header = [] ∧
    (openParse (pre ++ e :: rest) lOut).1.Entries = [] := by
  have hg : getInfoParse (pre ++ e :: rest) =
      .encOk { initFile with Typ := encArchStr, Encrypted := true } := by
    unfold getInfoParse
    rw [infoLoop_preamble_skip pre hpre, infoLoop_enc_early initFile [] e rest h1 h2]
  rw [openParse_encOk _ lOut _ hg]
  exact ⟨rfl, rfl, rfl, rfl, rfl⟩

/-- Witness for C1 at a concrete encrypted-archive error output. -/
theorem c1_witness :
    (openParse [("ERROR: a.7z: Can not open encrypted archive. Wrong password?".data)]
        []).2 = none ∧
    (openParse [("ERROR: a.7z: Can not open encrypted archive. Wrong password?".data)]
        []).1.Typ = encArchStr ∧
    (openParse [("ERROR: a.7z: Can not open encrypted archive. Wrong password?".data)]
        []).1.Encrypted = true ∧
    (openParse [("ERROR: a.7z: Can not open encrypted archive. Wrong password?".data)]
        []).1.Header = [] ∧
    (openParse [("ERROR: a.7z: Can not open encrypted archive. Wrong password?".data)]
        []).1.Entries = [] :=
  c1_encrypted_archive_sentinel [] [] []
    ("ERROR: a.7z: Can not open encrypted archive. Wrong password?".data)
    (by decide) (by decide) (by decide)

/-- Claim C5: when the header delimiter line is reached while the Type is
still empty (no "Type = " line occurred in the header block), open fails
with the no-Type format error and the Entries sequence is empty. -/
theorem c5_missing_type_format_error (pre mid rest lOut : List Str)
    (hpre : ∀ l ∈ pre, startsWith l errMark = false ∧ l ≠ dashDash)
    (hmid : ∀ l ∈ mid, startsWith l typeMark = false ∧ l ≠ tenDash) :
    (openParse (pre ++ dashDash :: (mid ++ tenDash :: rest)) lOut).2 =
      some noTypeMsg ∧
    (openParse (pre ++ dashDash :: (mid ++ tenDash :: rest)) lOut).1.Entries = [] := by
  obtain ⟨f2, heq, hTyp, hEnt⟩ :=
    infoLoop_header_noType mid hmid initFile [] (tenDash :: rest) rfl
  have hg : getInfoParse (pre ++ dashDash :: (mid ++ tenDash :: rest)) =
      .fail noTypeMsg f2 := by
    unfold getInfoParse
    rw [infoLoop_preamble_skip pre hpre, infoLoop_dashDash, heq,
      infoLoop_tenDash_noType f2 [] rest hTyp]
  rw [openParse_fail _ lOut _ _ hg]
  exact ⟨rfl, hEnt⟩

/-- Witness for C5: a concrete listing whose header block lacks a Type
line. -/
theorem c5_witness :
    (openParse [dashDash, ("junk".data), tenDash] []).2 = some noTypeMsg ∧
    (openParse [dashDash, ("junk".data), tenDash] []).1.Entries = [] :=
  c5_missing_type_format_error [] [("junk".data)] [] [] (by decide) (by decide)

/-- Claim C7 is false as stated: for the header-phase line
"Type = Type = x" the parse sets Type to "x" — every occurrence of the
marker is removed by ReplaceAll — and not to the remainder "Type = x"
after the marker. -/
theorem c7_counterexample :
    startsWith ("Type = Type = x".data) typeMark = true ∧
    (getInfoParse [dashDash, ("Type = Type = x".data), tenDash]).file.Typ = "x".data ∧
    ("x".data : Str) ≠ ("Type = Type = x".data).drop typeMark.length :=
  ⟨by decide, by decide, by decide⟩

/-- Claim C7 (amended): a header-phase line beginning with "Type = " sets
the archive Type to the line with every occurrence of "Type = " removed
(and also feeds the line to the header key/value extractor); whenever the
remainder after the marker contains no further occurrence of the marker,
that value equals the remainder after the marker. -/
theorem c7_type_replace_all (f : TFileM) (e : List (Str × Str)) (l : Str)
    (rest : List Str) (h : startsWith l typeMark = true) :
    infoLoop f e cHdr (l :: rest) = infoLoop (hdrStep f l) e cHdr rest ∧
    (hdrStep f l).Typ = replaceAll l typeMark [] ∧
    (containsSub (l.drop typeMark.length) typeMark = false →
      replaceAll l typeMark [] = l.drop typeMark.length) := by
  have h1 : l ≠ [] := by
    intro hl
    subst hl
    exact absurd h (by decide)
  have h2 : l ≠ tenDash := by
    intro hl
    subst hl
    exact absurd h (by decide)
  refine ⟨infoLoop_header_step f e l rest h1 h2, by simp [hdrStep, h], ?_⟩
  intro hno
  exact replaceAll_eq_drop l typeMark (by decide) h hno

/-- Witness for C7 at the header line "Type = Zip". -/
theorem c7_witness :
    replaceAll ("Type = Zip".data) typeMark [] =
      ("Type = Zip".data).drop typeMark.length :=
  (c7_type_replace_all initFile [] ("Type = Zip".data) [] (by decide)).2.2 (by decide)

/-- Claim C10: in the entries phase an entry is appended exactly when a
blank line is consumed — the final Entries are the starting ones plus one
produced entry per blank line; a blank line appends the entry accumulated
so far, which is the empty mapping when the blank immediately follows the
delimiter or another blank line; a blank-free tail (an unterminated final
stanza) appends nothing. -/
theorem c10_entries_appended_on_blank (f : TFileM) (e : List (Str × Str))
    (lines : List Str) :
    (infoLoop f e cEnt lines).isDone = true ∧
    (infoLoop f e cEnt lines).file.Entries = f.Entries ++ producedEntries e lines ∧
    (∀ rest, producedEntries e (([] : Str) :: rest) = e :: producedEntries [] rest) ∧
    (∀ s, (∀ l ∈ s, l ≠ []) → producedEntries e s = []) := by
  obtain ⟨hd, hent, _, _⟩ := infoLoop_entries_run lines f e
  refine ⟨hd, hent, fun rest => by simp [producedEntries], fun s hs => ?_⟩
  have h := producedEntries_stanza s hs e []
  rw [List.append_nil] at h
  exact h

/-- Witness for C10: a blank-free tail appends no entry. -/
theorem c10_witness :
    producedEntries [] [("Path = a".data)] = [] :=
  (c10_entries_appended_on_blank initFile [] []).2.2.2 [("Path = a".data)] (by decide)

/-- Claim C2: a well-formed detailed listing whose header block consists of
the lines "Type = Zip" and "Encrypted = -" followed by the "----------"
delimiter, then two blank-line-terminated stanzas, parses successfully to a
Header holding exactly the pairs {Type: Zip, Encrypted: -} and an Entries
sequence of length two, each entry the key/value mapping extracted from its
stanza's " = "-separated lines, in stanza order. -/
theorem c2_wellformed_listing_parse (pre s1 s2 : List Str)
    (hpre : ∀ l ∈ pre, startsWith l errMark = false ∧ l ≠ dashDash)
    (h1 : ∀ l ∈ s1, l ≠ []) (h2 : ∀ l ∈ s2, l ≠ []) :
    (getInfoParse (pre ++ dashDash :: ("Type = Zip".data) :: ("Encrypted = -".data) ::
        tenDash :: (s1 ++ ([] : Str) :: (s2 ++ [([] : Str)])))).isDone = true ∧
    (getInfoParse (pre ++ dashDash :: ("Type = Zip".data) :: ("Encrypted = -".data) ::
        tenDash :: (s1 ++ ([] : Str) :: (s2 ++ [([] : Str)])))).file.Header =
      [("Type".data, "Zip".data), ("Encrypted".data, "-".data)] ∧
    (getInfoParse (pre ++ dashDash :: ("Type = Zip".data) :: ("Encrypted = -".data) ::
        tenDash :: (s1 ++ ([] : Str) :: (s2 ++ [([] : Str)])))).file.Entries =
      [s1.foldl entryAddKey [], s2.foldl entryAddKey []] := by
  have key : getInfoParse (pre ++ dashDash :: ("Type = Zip".data) ::
      ("Encrypted = -".data) :: tenDash :: (s1 ++ ([] : Str) :: (s2 ++ [([] : Str)]))) =
      infoLoop (⟨"Zip".data, [], [("Type".data, "Zip".data),
        ("Encrypted".data, "-".data)], [], false, [], []⟩ : TFileM) [] cEnt
        (s1 ++ ([] : Str) :: (s2 ++ [([] : Str)])) := by
    unfold getInfoParse
    rw [infoLoop_preamble_skip pre hpre, infoLoop_dashDash,
      infoLoop_header_step initFile [] ("Type = Zip".data) _ (by decide) (by decide),
      (by decide : hdrStep initFile ("Type = Zip".data) =
        (⟨"Zip".data, [], [("Type".data, "Zip".data)], [], false, [], []⟩ : TFileM)),
      infoLoop_header_step _ [] ("Encrypted = -".data) _ (by decide) (by decide),
      (by decide : hdrStep
        (⟨"Zip".data, [], [("Type".data, "Zip".data)], [], false, [], []⟩ : TFileM)
        ("Encrypted = -".data) =
        (⟨"Zip".data, [], [("Type".data, "Zip".data), ("Encrypted".data, "-".data)],
          [], false, [], []⟩ : TFileM)),
      infoLoop_tenDash_typed _ [] _ (by decide)]
  obtain ⟨hd, hent, hhdr, _⟩ :=
    infoLoop_entries_run (s1 ++ ([] : Str) :: (s2 ++ [([] : Str)]))
      (⟨"Zip".data, [], [("Type".data, "Zip".data), ("Encrypted".data, "-".data)],
        [], false, [], []⟩ : TFileM) []
  have hPE : producedEntries [] (s1 ++ ([] : Str) :: (s2 ++ [([] : Str)])) =
      [s1.foldl entryAddKey [], s2.foldl entryAddKey []] := by
    rw [producedEntries_stanza s1 h1]
    have hblank : producedEntries (s1.foldl entryAddKey [])
        (([] : Str) :: (s2 ++ [([] : Str)])) =
        (s1.foldl entryAddKey []) :: producedEntries [] (s2 ++ [([] : Str)]) := by
      simp [producedEntries]
    rw [hblank, producedEntries_stanza s2 h2]
    rfl
  refine ⟨?_, ?_, ?_⟩
  · rw [key]
    exact hd
  · rw [key, hhdr]
  · rw [key, hent, hPE]
    rfl

/-- Witness for C2 with concrete one-line stanzas. -/
theorem c2_witness :
    (getInfoParse [dashDash, ("Type = Zip".data), ("Encrypted = -".data), tenDash,
        ("Path = a".data), [], ("Path = b".data), []]).isDone = true ∧
    (getInfoParse [dashDash, ("Type = Zip".data), ("Encrypted = -".data), tenDash,
        ("Path = a".data), [], ("Path = b".data), []]).file.Header =
      [("Type".data, "Zip".data), ("Encrypted".data, "-".data)] ∧
    (getInfoParse [dashDash, ("Type = Zip".data), ("Encrypted = -".data), tenDash,
        ("Path = a".data), [], ("Path = b".data), []]).file.Entries =
      [[("Path = a".data)].foldl entryAddKey [], [("Path = b".data)].foldl entryAddKey []] :=
  c2_wellformed_listing_parse [] [("Path = a".data)] [("Path = b".data)]
    (by decide) (by decide) (by decide)
